import Mathlib

/-!
Verification of the BruteWordsCrank wordlist generator (src/BruteWordsCrank.py).

The Python program is shallowly embedded below: every definition is a direct
translation of a function of the source file, with the same control flow.
Machine integers do not arise (Python integers are unbounded), so counts are
modelled as Nat and user-facing integer arguments as Int.  Lazy generators
become Lean lists (the program only ever drives them front-to-back).
-/

/-- Translation of the module-level CHARSET_MAP together with the
dictionary access pattern CHARSET_MAP.get(char, [char]) used by the
pattern mode: a recognized class symbol maps to its named charset,
any other character to the one-element list holding that character. -/
def CHARSET_MAP_get (c : Char) : List Char :=
  if c = '@' then "abcdefghijklmnopqrstuvwxyz".toList
  else if c = '%' then "0123456789".toList
  else if c = '^' then "!@#$%^&*()_+-=[]\x7b\x7d|;\x27:\x22,./<>?\x60~".toList
  else [c]

/-- The default charset of the charset CLI argument: CHARSET_MAP['@']. -/
def default_charset : List Char := CHARSET_MAP_get '@'

/-- Translation of itertools.product(cs, repeat = n): all length-n tuples
over cs, the first position varying slowest (rightmost fastest). -/
def productRepeat {α : Type} (cs : List α) : Nat → List (List α)
  | 0 => [[]]
  | n + 1 => cs.flatMap (fun c => (productRepeat cs n).map (fun t => c :: t))

/-- Translation of itertools.product(*css): tuples taking the i-th entry
from css[i], the first position varying slowest (rightmost fastest). -/
def productLists {α : Type} : List (List α) → List (List α)
  | [] => [[]]
  | cs :: rest => cs.flatMap (fun c => (productLists rest).map (fun t => c :: t))

/-- All ways to pick one element out of a list, in position order, paired
with the remaining elements in their original order.  This is the selection
step of the itertools.permutations enumeration. -/
def picks {α : Type} : List α → List (α × List α)
  | [] => []
  | x :: xs => (x, xs) :: (picks xs).map (fun p => (p.1, x :: p.2))

/-- Translation of itertools.permutations(l, r): length-r tuples of distinct
positions of l, positions filled left to right, earlier positions varying
slowest.  Duplicate values of l are kept (positions, not values, are distinct). -/
def permsAux {α : Type} : Nat → List α → List (List α)
  | 0, _ => [[]]
  | r + 1, l => (picks l).flatMap (fun p => (permsAux r p.2).map (fun t => p.1 :: t))

/-- Translation of itertools.permutations(l) (full length r = len(l)). -/
def permsList {α : Type} (l : List α) : List (List α) := permsAux l.length l

/-- The enumeration domain selected by the CLI arguments: exactly one of the
three generation modes of the program (permutations has precedence over
pattern, which has precedence over charset/length range). -/
inductive SpaceSpec where
  | rangeCombinations (charset : List Char) (minLen maxLen : Nat)
  | patternMode (tokens : List Char)
  | permutationsMode (symbols : List Char)

/-- Translation of WordlistGenerator._estimate_combinations: permutations
mode counts the materialized permutations list; pattern mode multiplies the
resolved per-token charset sizes starting from 1; range mode sums
len(charset) ** L for L in range(min_len, max_len + 1). -/
def estimate_combinations : SpaceSpec → Nat
  | .permutationsMode syms => (permsList syms).length
  | .patternMode pat => pat.foldl (fun count c => count * (CHARSET_MAP_get c).length) 1
  | .rangeCombinations cs minLen maxLen =>
      ((List.range' minLen (maxLen + 1 - minLen)).map (fun i => cs.length ^ i)).sum

/-- Translation of the generator built by _generate_permutations /
_generate_combinations: the word sequence of the selected mode, as a list.
Range mode is itertools.chain.from_iterable of the per-length products,
lengths ascending over range(min_len, max_len + 1). -/
def generate_words : SpaceSpec → List (List Char)
  | .permutationsMode syms => permsList syms
  | .patternMode pat => productLists (pat.map CHARSET_MAP_get)
  | .rangeCombinations cs minLen maxLen =>
      (List.range' minLen (maxLen + 1 - minLen)).flatMap (productRepeat cs)

/-- Validity of a specification in the sense of the specification document:
a non-empty charset and ordered length bounds for range mode; pattern and
permutations mode have no further constraints. -/
def SpaceSpec.valid : SpaceSpec → Prop
  | .rangeCombinations cs minLen maxLen => cs ≠ [] ∧ minLen ≤ maxLen
  | .patternMode _ => True
  | .permutationsMode _ => True

instance : DecidablePred SpaceSpec.valid := by
  intro s
  cases s <;> simp [SpaceSpec.valid] <;> infer_instance

/-- Outcome of abnormal termination inside WordlistGenerator.validate_args:
sys.exit(1) on a failed length check, or an unhandled Python TypeError. -/
inductive PyErr where
  | typeError
  | sysExit1
deriving DecidableEq

/-- Translation of WordlistGenerator.validate_args.  The method evaluates
self.args.min_len > self.args.max_len first; when either side is None
(which argparse produces whenever a length was omitted, e.g. in a pure
permutations invocation) the Python comparison None > None raises an
unhandled TypeError.  When both are integers it exits with status 1 if
min_len > max_len.  The remaining statements only print warnings and do
not influence control flow, so they have no counterpart here. -/
def validate_args (minLen maxLen : Option Int) : Except PyErr Unit :=
  match minLen, maxLen with
  | some a, some b => if a > b then .error .sysExit1 else .ok ()
  | _, _ => .error .typeError

/-- Translation of the effective-limit computation of run_generation:
effective_limit = total; if args.limit and args.limit < total:
effective_limit = args.limit.  Python truthiness makes a limit of 0
indistinguishable from an absent limit here. -/
def effectiveLimit (limitArg : Option Int) (total : Int) : Int :=
  match limitArg with
  | none => total
  | some l => if l ≠ 0 ∧ l < total then l else total

/-- Translation of the line written per word inside _write_to_file:
each line is the configured leading string, then "".join(word_tuple), then
the configured trailing string, then a newline. -/
def renderLine (pre suf : String) (w : List Char) : String :=
  pre ++ String.mk w ++ suf ++ "\n"

/-- Translation of the main loop of _write_to_file, started after the
islice skip: walking the remaining generator, it stops as soon as
count >= limit, otherwise writes the rendered line, increments count and
persists count to the session file whenever count % 10000 == 0.  Returns
the written lines and the last session value persisted during the loop. -/
def writeWords (pre suf : String) (limit : Int) :
    List (List Char) → Nat → Option Nat → List String × Option Nat
  | [], _, sess => ([], sess)
  | w :: ws, count, sess =>
    if limit ≤ (count : Int) then ([], sess)
    else
      let count' := count + 1
      let sess' := if count' % 10000 = 0 then some count' else sess
      let r := writeWords pre suf limit ws count' sess'
      (renderLine pre suf w :: r.1, r.2)

/-- The decimal rendering str(n) of a non-negative Python integer. -/
def str_of_nat (n : Nat) : List Char :=
  if n = 0 then ['0']
  else ((Nat.digits 10 n).map (fun d => Char.ofNat (48 + d))).reverse

/-- Translation of _save_progress: the session file content is str(count),
the decimal rendering of the (non-negative) running count. -/
def save_progress (count : Nat) : List Char := str_of_nat count

/-- Python str.strip() removes these whitespace characters from both ends:
space (32), tab (9), newline (10), carriage return (13), vertical tab (11)
and form feed (12), identified here by their code points. -/
def isSpaceChar (c : Char) : Bool :=
  c.toNat = 32 || c.toNat = 9 || c.toNat = 10 || c.toNat = 13 ||
    c.toNat = 11 || c.toNat = 12

/-- Translation of str.strip(): drop whitespace from the front and from
the back of the character sequence. -/
def stripChars (s : List Char) : List Char :=
  ((s.dropWhile isSpaceChar).reverse.dropWhile isSpaceChar).reverse

/-- Parsing of an unsigned decimal numeral: the digit portion of Python
int(...).  Fails (ValueError) on an empty string or any non-digit char. -/
def parse_digits (s : List Char) : Option Nat :=
  if s ≠ [] ∧ s.all (fun c => 48 ≤ c.toNat && c.toNat ≤ 57) then
    some (s.foldl (fun acc c => acc * 10 + (c.toNat - 48)) 0)
  else none

/-- Model of Python int(...) on an already-stripped string: an optional
sign followed by decimal digits (underscored literals and other exotic
int() inputs never arise from session files and are not modelled). -/
def parse_int (s : List Char) : Option Int :=
  if s ≠ [] ∧ s.head! = '-' then (parse_digits (s.drop 1)).map (fun n => -(n : Int))
  else if s ≠ [] ∧ s.head! = '+' then (parse_digits (s.drop 1)).map (fun n => (n : Int))
  else (parse_digits s).map (fun n => (n : Int))

/-- Translation of _get_start_point: under --resume with an existing
session file, int(content.strip()) is returned; a ValueError or IOError
degrades to 0 with a warning; otherwise 0. -/
def get_start_point (resume : Bool) (sessionFile : Option (List Char)) : Int :=
  if resume then
    match sessionFile with
    | some content =>
      match parse_int (stripChars content) with
      | some n => n
      | none => 0
    | none => 0
  else 0

/-- The three terminal outcomes of a run per the specification document. -/
inductive Outcome where
  | completed
  | paused
  | failed
deriving DecidableEq

/-- Result of one full run: the lines written to the output file, the last
session value persisted by the periodic checkpoint during the loop, the
session record present after the run ends, and the terminal outcome. -/
structure RunResult where
  lines : List String
  sessionDuring : Option Nat
  sessionAfter : Option Nat
  outcome : Outcome
deriving DecidableEq

/-- Translation of run_generation composed with _write_to_file on the
interruption-free path (KeyboardInterrupt and IOError are external events
with no counterpart in a pure model): resolve the start offset, compute the
effective limit, skip start_count items of the generator (itertools.islice),
run the write loop, and finally delete the session file if it exists —
hence sessionAfter is always absent on this path and the outcome is
Completed.  A negative persisted offset would crash islice in Python and is
not modelled; session files only ever hold non-negative counts. -/
def runGeneration (s : SpaceSpec) (limitArg : Option Int) (resume : Bool)
    (sessionFile : Option (List Char)) (pre suf : String) : RunResult :=
  let startCount := (get_start_point resume sessionFile).toNat
  let effective := effectiveLimit limitArg (estimate_combinations s : Int)
  let r := writeWords pre suf effective ((generate_words s).drop startCount) startCount none
  { lines := r.1, sessionDuring := r.2, sessionAfter := none, outcome := .completed }

/-- Terminal behaviours of the whole program (main): argparse usage error
(exit 2), the unhandled TypeError from validate_args, sys.exit(1) from
validation, an unhandled runtime error during generation, or a successful
run reporting total_combinations and the written lines. -/
inductive ProgResult where
  | exitArgparse
  | exitTypeError
  | exitValidation
  | exitRuntimeError
  | success (totalSize : Nat) (lines : List String)
deriving DecidableEq

/-- Body shared by the success branches of runMain: estimate the size,
compute the effective limit and run the write loop from offset 0. -/
def runSpec (sp : SpaceSpec) (pre suf : String) (limitArg : Option Int) : ProgResult :=
  let total := estimate_combinations sp
  let effective := effectiveLimit limitArg (total : Int)
  .success total ((writeWords pre suf effective (generate_words sp) 0 none).1)

/-- Translation of main for a fresh (non-resumed) invocation: the argparse
gate requires min_len and max_len unless --permutations is given (exit 2),
then WordlistGenerator.__init__ runs validate_args (which raises TypeError
whenever a needed length is None, and exits 1 when min_len > max_len), then
run_generation dispatches on mode with precedence permutations > pattern >
charset/length.  A negative min_len reaches itertools.product with a
negative repeat, an unhandled ValueError, modelled as exitRuntimeError. -/
def runMain (minLen maxLen : Option Int) (charset : List Char)
    (patternArg permutationsArg : Option (List Char))
    (pre suf : String) (limitArg : Option Int) : ProgResult :=
  if permutationsArg = none ∧ (minLen = none ∨ maxLen = none) then .exitArgparse
  else
    match validate_args minLen maxLen with
    | .error .typeError => .exitTypeError
    | .error .sysExit1 => .exitValidation
    | .ok _ =>
      match permutationsArg with
      | some syms => runSpec (.permutationsMode syms) pre suf limitArg
      | none =>
        match patternArg with
        | some pat => runSpec (.patternMode pat) pre suf limitArg
        | none =>
          match minLen, maxLen with
          | some a, some b =>
            if a < 0 then .exitRuntimeError
            else runSpec (.rangeCombinations charset a.toNat b.toNat) pre suf limitArg
          | _, _ => .exitArgparse

theorem length_flatMap_sum {α β : Type} (l : List α) (f : α → List β) :
    (l.flatMap f).length = (l.map (fun a => (f a).length)).sum := by
  simp only [List.flatMap, List.length_flatten, List.map_map]
  rfl

theorem sum_map_const_nat {α : Type} (l : List α) (k : Nat) :
    (l.map (fun _ => k)).sum = l.length * k := by
  induction l with
  | nil => simp
  | cons x t ih => simp [ih]; ring

theorem productRepeat_length {α : Type} (cs : List α) (n : Nat) :
    (productRepeat cs n).length = cs.length ^ n := by
  induction n with
  | zero => simp [productRepeat]
  | succ n ih =>
    rw [productRepeat, length_flatMap_sum]
    simp only [List.length_map]
    rw [sum_map_const_nat, ih, pow_succ, Nat.mul_comm]

theorem productLists_length {α : Type} (css : List (List α)) :
    (productLists css).length = (css.map List.length).prod := by
  induction css with
  | nil => simp [productLists]
  | cons cs rest ih =>
    rw [productLists, length_flatMap_sum]
    simp only [List.length_map]
    rw [sum_map_const_nat, ih, List.map_cons, List.prod_cons]

theorem foldl_mul_map {α : Type} (f : α → Nat) (l : List α) :
    ∀ init : Nat, l.foldl (fun a x => a * f x) init = init * (l.map f).prod := by
  induction l with
  | nil => intro init; simp
  | cons x t ih =>
    intro init
    rw [List.foldl_cons, ih, List.map_cons, List.prod_cons, mul_assoc]

theorem picks_snd_length {α : Type} : ∀ {l : List α} {p : α × List α},
    p ∈ picks l → p.2.length + 1 = l.length := by
  intro l
  induction l with
  | nil => intro p hp; simp [picks] at hp
  | cons x xs ih =>
    intro p hp
    rw [picks, List.mem_cons] at hp
    rcases hp with h | h
    · subst h; simp
    · rcases List.mem_map.mp h with ⟨q, hq, rfl⟩
      have := ih hq
      simp at this ⊢
      omega

theorem sum_map_range' (f : Nat → Nat) : ∀ (n a : Nat),
    ((List.range' a n).map f).sum = ∑ i ∈ Finset.range n, f (a + i) := by
  intro n
  induction n with
  | zero => intro a; simp
  | succ n ih =>
    intro a
    rw [List.range'_succ, List.map_cons, List.sum_cons, ih (a + 1),
      Finset.sum_range_succ']
    have h1 : ∀ i, f (a + 1 + i) = f (a + (i + 1)) := by
      intro i; congr 1; omega
    simp only [h1, Nat.add_zero]
    exact Nat.add_comm _ _

theorem estimate_range_eq (cs : List Char) (a b : Nat) :
    estimate_combinations (.rangeCombinations cs a b) =
      ∑ L ∈ Finset.Icc a b, cs.length ^ L := by
  show ((List.range' a (b + 1 - a)).map (fun i => cs.length ^ i)).sum = _
  rw [sum_map_range', ← Finset.sum_Ico_eq_sum_range]
  congr 1

theorem generate_words_length (s : SpaceSpec) :
    (generate_words s).length = estimate_combinations s := by
  cases s with
  | permutationsMode syms => rfl
  | patternMode pat =>
    show (productLists (pat.map CHARSET_MAP_get)).length =
      pat.foldl (fun count c => count * (CHARSET_MAP_get c).length) 1
    rw [productLists_length, List.map_map, foldl_mul_map, one_mul]
    rfl
  | rangeCombinations cs a b =>
    show ((List.range' a (b + 1 - a)).flatMap (productRepeat cs)).length = _
    rw [length_flatMap_sum]
    show _ = ((List.range' a (b + 1 - a)).map (fun i => cs.length ^ i)).sum
    congr 1
    exact List.map_congr_left (fun L _ => productRepeat_length cs L)

theorem writeWords_length (pre suf : String) (limit : Int) :
    ∀ (ws : List (List Char)) (count : Nat) (sess : Option Nat),
      ((writeWords pre suf limit ws count sess).1).length =
        min (limit - count).toNat ws.length := by
  intro ws
  induction ws with
  | nil => intro count sess; simp [writeWords]
  | cons w t ih =>
    intro count sess
    rw [writeWords]
    split
    next h => simp only [List.length_nil, List.length_cons]; omega
    next h =>
      simp only [List.length_cons, ih]
      omega

theorem effectiveLimit_eq_min (l t : Int) (h : l ≠ 0) :
    effectiveLimit (some l) t = min l t := by
  simp only [effectiveLimit]
  rw [min_def]
  split
  next hc => split <;> omega
  next hc =>
    rw [not_and] at hc
    have := hc h
    split <;> omega

theorem head_bang_mem {α : Type} [Inhabited α] {l : List α} (h : l ≠ []) :
    l.head! ∈ l := by
  cases l with
  | nil => exact absurd rfl h
  | cons a t => simp [List.head!]

theorem char_ofNat_digit_toNat {d : Nat} (h : d < 10) :
    (Char.ofNat (48 + d)).toNat = 48 + d := by
  interval_cases d <;> decide

theorem str_of_nat_ne_nil (n : Nat) : str_of_nat n ≠ [] := by
  unfold str_of_nat
  split
  · simp
  next h =>
    simp only [ne_eq, List.reverse_eq_nil_iff, List.map_eq_nil_iff]
    exact Nat.digits_ne_nil_iff_ne_zero.mpr h

theorem str_of_nat_digits {n : Nat} :
    ∀ c ∈ str_of_nat n, 48 ≤ c.toNat ∧ c.toNat ≤ 57 := by
  intro c hc
  unfold str_of_nat at hc
  split at hc
  · simp only [List.mem_singleton] at hc
    subst hc
    decide
  · rw [List.mem_reverse] at hc
    rcases List.mem_map.mp hc with ⟨d, hd, rfl⟩
    have hlt : d < 10 := Nat.digits_lt_base (by norm_num) hd
    rw [char_ofNat_digit_toNat hlt]
    omega

theorem foldl_horner (l : List Nat) : ∀ acc : Nat,
    l.reverse.foldl (fun a d => a * 10 + d) acc =
      acc * 10 ^ l.length + Nat.ofDigits 10 l := by
  induction l with
  | nil => intro acc; simp [Nat.ofDigits_nil]
  | cons d t ih =>
    intro acc
    rw [List.reverse_cons, List.foldl_append]
    simp only [List.foldl_cons, List.foldl_nil]
    rw [ih acc, Nat.ofDigits_cons, List.length_cons]
    ring

theorem foldl_congr_of_mem {α β : Type} {f g : β → α → β} :
    ∀ (l : List α), (∀ b a, a ∈ l → f b a = g b a) →
      ∀ init, l.foldl f init = l.foldl g init
  | [], _, _ => rfl
  | x :: t, h, init => by
    rw [List.foldl_cons, List.foldl_cons, h init x (List.mem_cons_self x t)]
    exact foldl_congr_of_mem t (fun b a ha => h b a (List.mem_cons_of_mem x ha)) _

theorem parse_digits_str_of_nat (n : Nat) : parse_digits (str_of_nat n) = some n := by
  unfold parse_digits
  rw [if_pos]
  case hc =>
    refine ⟨str_of_nat_ne_nil n, ?_⟩
    rw [List.all_eq_true]
    intro c hc
    have := str_of_nat_digits c hc
    simp only [Bool.and_eq_true, decide_eq_true_eq]
    omega
  congr 1
  unfold str_of_nat
  split
  next h => subst h; rfl
  next h =>
    rw [← List.map_reverse, List.foldl_map]
    have hdig : ∀ d ∈ (Nat.digits 10 n).reverse, d < 10 := fun d hd =>
      Nat.digits_lt_base (by norm_num) (List.mem_reverse.mp hd)
    have hstep : ∀ (b d : Nat), d ∈ (Nat.digits 10 n).reverse →
        b * 10 + ((Char.ofNat (48 + d)).toNat - 48) = b * 10 + d := by
      intro b d hd
      rw [char_ofNat_digit_toNat (hdig d hd)]
      omega
    rw [foldl_congr_of_mem ((Nat.digits 10 n).reverse) hstep 0, foldl_horner]
    simp [Nat.ofDigits_digits]

theorem digit_not_space {c : Char} (h48 : 48 ≤ c.toNat) (h57 : c.toNat ≤ 57) :
    isSpaceChar c = false := by
  simp only [isSpaceChar, Bool.or_eq_false_iff, decide_eq_false_iff_not]
  omega

theorem dropWhile_eq_self_of_not {p : Char → Bool} {l : List Char}
    (h : ∀ c ∈ l, p c = false) : l.dropWhile p = l := by
  cases l with
  | nil => rfl
  | cons c t =>
    rw [List.dropWhile_cons, h c (List.mem_cons_self c t)]
    simp

theorem stripChars_eq_self {l : List Char} (h : ∀ c ∈ l, isSpaceChar c = false) :
    stripChars l = l := by
  unfold stripChars
  rw [dropWhile_eq_self_of_not h,
    dropWhile_eq_self_of_not (fun c hc => h c (List.mem_reverse.mp hc)),
    List.reverse_reverse]

theorem parse_int_str_of_nat (n : Nat) : parse_int (str_of_nat n) = some (n : Int) := by
  unfold parse_int
  have hne := str_of_nat_ne_nil n
  have hhead := str_of_nat_digits (n := n) _ (head_bang_mem hne)
  rw [if_neg, if_neg]
  · rw [parse_digits_str_of_nat]; rfl
  · rintro ⟨-, h⟩
    rw [h] at hhead
    simp at hhead
  · rintro ⟨-, h⟩
    rw [h] at hhead
    simp at hhead

theorem estimate_empty_charset {m M : Nat} (h1 : 1 ≤ m) :
    estimate_combinations (.rangeCombinations [] m M) = 0 := by
  show ((List.range' m (M + 1 - m)).map (fun i => ([] : List Char).length ^ i)).sum = 0
  apply List.sum_eq_zero
  intro x hx
  rcases List.mem_map.mp hx with ⟨L, hL, rfl⟩
  rcases List.mem_range'.mp hL with ⟨i, hi, rfl⟩
  show (0 : Nat) ^ (m + 1 * i) = 0
  apply zero_pow
  omega

theorem generate_empty_charset {m M : Nat} (h1 : 1 ≤ m) :
    generate_words (.rangeCombinations [] m M) = [] := by
  apply List.length_eq_zero.mp
  rw [generate_words_length]
  exact estimate_empty_charset h1

theorem runSpec_empty_charset {m M : Nat} (h1 : 1 ≤ m) :
    runSpec (.rangeCombinations [] m M) "" "" none = ProgResult.success 0 [] := by
  simp only [runSpec]
  rw [generate_empty_charset h1, estimate_empty_charset h1]
  rfl

theorem renderLine_nil (pre suf : String) : renderLine pre suf [] = pre ++ suf ++ "\n" := by
  show pre ++ String.mk [] ++ suf ++ "\n" = pre ++ suf ++ "\n"
  rw [show String.mk [] = "" from rfl, String.append_empty]

/-- C1: the specification promises that a permutations-mode invocation on
"ab" with no min/max length arguments reports totalSize 2 and emits "ab"
then "ba".  The program instead dies with an unhandled TypeError inside
validate_args, where min_len > max_len compares None with None, before any
size is reported or any word emitted (first conjunct).  The enumeration
engine itself would deliver exactly the claimed result: the raw
permutations of "ab" are the two claimed words (second conjunct), and the
same invocation with explicit dummy lengths 0 0 succeeds with totalSize 2
and the two lines "ab", "ba" in that order (third conjunct). -/
theorem c1_permutations_invocation_crashes :
    runMain none none default_charset none (some "ab".toList) "" "" none
        = ProgResult.exitTypeError
    ∧ permsList "ab".toList = ["ab".toList, "ba".toList]
    ∧ runMain (some 0) (some 0) default_charset none (some "ab".toList) "" "" none
        = ProgResult.success 2 ["ab\n", "ba\n"] :=
  ⟨rfl, rfl, rfl⟩

/-- C2 counterexample: the claim asserts the emission budget is
min(userLimit, totalSize) for every supplied integer limit, including 0.
For a supplied limit of 0 on a space of total size 2, the code computes an
effective limit of 2 (the whole space), not min(0, 2) = 0: Python
truthiness makes limit 0 behave as if no limit had been supplied. -/
theorem c2_counterexample :
    effectiveLimit (some 0) (estimate_combinations (.permutationsMode "ab".toList) : Int) = 2
    ∧ min (0 : Int) (estimate_combinations (.permutationsMode "ab".toList) : Int) = 0 := by
  decide

/-- C2 amended: if a user limit was supplied and is nonzero, the effective
limit equals min(userLimit, totalSize); if no limit was supplied, or the
supplied limit is 0 (which Python truthiness treats as unsupplied), the
effective limit equals totalSize. -/
theorem c2_amended (l t : Int) (h : l ≠ 0) :
    effectiveLimit (some l) t = min l t
    ∧ effectiveLimit none t = t
    ∧ effectiveLimit (some 0) t = t :=
  ⟨effectiveLimit_eq_min l t h, rfl, by simp [effectiveLimit]⟩

theorem c2_amended_witness :
    effectiveLimit (some 3) 5 = min 3 5
    ∧ effectiveLimit none 5 = 5
    ∧ effectiveLimit (some 0) 5 = 5 :=
  c2_amended 3 5 (by decide)

/-- C3: in range-combinations mode with charset "01", minLen 1, maxLen 2,
the enumeration is exactly "0", "1", "00", "01", "10", "11" in that order
(lengths ascending, rightmost position fastest) and totalSize is 6. -/
theorem c3_enumeration_order :
    generate_words (.rangeCombinations "01".toList 1 2)
        = ["0".toList, "1".toList, "00".toList, "01".toList, "10".toList, "11".toList]
    ∧ estimate_combinations (.rangeCombinations "01".toList 1 2) = 6 :=
  ⟨rfl, rfl⟩

/-- C4: for every valid SpaceSpecification of any of the three modes, the
enumerator produces a finite sequence of exactly totalSize() words. -/
theorem c4_enumerator_yields_totalSize (s : SpaceSpec) (hv : s.valid) :
    (generate_words s).length = estimate_combinations s :=
  generate_words_length s

theorem c4_witness :
    (generate_words (.rangeCombinations "01".toList 1 2)).length
      = estimate_combinations (.rangeCombinations "01".toList 1 2) :=
  c4_enumerator_yields_totalSize _ (by decide)

/-- C5: skipping past the first n items and then reading the next m items
yields exactly the words obtained by generating the first n + m items of a
fresh enumeration and discarding the first n, for every n within the total
size. -/
theorem c5_skip_ahead (s : SpaceSpec) (n m : Nat)
    (h : n ≤ estimate_combinations s) :
    ((generate_words s).drop n).take m = ((generate_words s).take (n + m)).drop n :=
  List.take_drop n m (generate_words s)

theorem c5_witness :
    2 ≤ estimate_combinations (.rangeCombinations "01".toList 1 2)
    ∧ ((generate_words (.rangeCombinations "01".toList 1 2)).drop 2).take 3
      = ((generate_words (.rangeCombinations "01".toList 1 2)).take (2 + 3)).drop 2 :=
  ⟨by decide, c5_skip_ahead _ 2 3 (by decide)⟩

/-- C6: totalSize of a range-combinations space is the exact mathematical
sum of the powers of the charset size over the length range; in particular
for a 95-symbol charset at length 20 it exceeds the 64-bit range instead of
wrapping (Python integers are unbounded, and the embedding computes in
Nat). -/
theorem c6_totalSize_exact :
    (∀ (cs : List Char) (a b : Nat),
        estimate_combinations (.rangeCombinations cs a b)
          = ∑ L ∈ Finset.Icc a b, cs.length ^ L)
    ∧ 2 ^ 64 < estimate_combinations
        (.rangeCombinations ((List.range 95).map (fun k => Char.ofNat (32 + k))) 20 20) :=
  ⟨fun cs a b => estimate_range_eq cs a b, by decide⟩

/-- C7 counterexample: the claim asserts an empty charset is rejected as a
fatal validation error before generation, for every minLen/maxLen pair.
At minLen 1, maxLen 2 with an empty charset, validate_args succeeds and the
whole run completes normally, reporting totalSize 0 and writing no words —
no error path is taken. -/
theorem c7_counterexample :
    validate_args (some 1) (some 2) = Except.ok ()
    ∧ runMain (some 1) (some 2) [] none none "" "" none = ProgResult.success 0 [] :=
  ⟨rfl, rfl⟩

/-- C7 amended: an empty charset is not rejected.  For every ordered pair
of positive lengths, argument validation passes and the run completes
successfully with totalSize 0 and an empty output. -/
theorem c7_amended (m M : Nat) (h1 : 1 ≤ m) (h2 : m ≤ M) :
    validate_args (some (m : Int)) (some (M : Int)) = Except.ok ()
    ∧ runMain (some (m : Int)) (some (M : Int)) [] none none "" "" none
        = ProgResult.success 0 [] := by
  have hv : validate_args (some (m : Int)) (some (M : Int)) = Except.ok () := by
    simp only [validate_args]
    rw [if_neg]
    omega
  refine ⟨hv, ?_⟩
  simp only [runMain]
  rw [if_neg (by simp), hv]
  simp only [Int.toNat_natCast]
  rw [if_neg (by omega)]
  exact runSpec_empty_charset h1

theorem c7_witness :
    validate_args (some ((1 : Nat) : Int)) (some ((2 : Nat) : Int)) = Except.ok ()
    ∧ runMain (some ((1 : Nat) : Int)) (some ((2 : Nat) : Int)) [] none none "" "" none
        = ProgResult.success 0 [] :=
  c7_amended 1 2 (by decide) (by decide)

/-- C8: persisting any non-negative count C to the session store and
reading the resume offset back for the same target yields exactly C: the
decimal rendering written by _save_progress survives the strip-and-int
parse of _get_start_point. -/
theorem c8_session_roundtrip (C : Nat) :
    get_start_point true (some (save_progress C)) = (C : Int) := by
  show (match parse_int (stripChars (save_progress C)) with
        | some n => n
        | none => 0) = (C : Int)
  rw [show save_progress C = str_of_nat C from rfl,
    stripChars_eq_self (fun c hc =>
      digit_not_space (str_of_nat_digits c hc).1 (str_of_nat_digits c hc).2),
    parse_int_str_of_nat]

/-- C9: when a run stops because the supplied limit is reached before the
space is exhausted, exactly limit lines are written, the outcome is
Completed, and the session record is absent afterwards (run_generation
deletes it unconditionally on normal completion). -/
theorem c9_limit_completes (s : SpaceSpec) (pre suf : String) (lim : Nat)
    (h1 : 0 < lim) (h2 : lim < estimate_combinations s) :
    (runGeneration s (some (lim : Int)) false none pre suf).lines.length = lim
    ∧ (runGeneration s (some (lim : Int)) false none pre suf).sessionAfter = none
    ∧ (runGeneration s (some (lim : Int)) false none pre suf).outcome
        = Outcome.completed := by
  refine ⟨?_, rfl, rfl⟩
  simp only [runGeneration]
  rw [show (get_start_point false none).toNat = 0 from rfl, List.drop_zero,
    writeWords_length, effectiveLimit_eq_min _ _ (by omega), generate_words_length]
  omega

theorem c9_witness :
    (runGeneration (.rangeCombinations "0123456789".toList 2 2)
        (some ((3 : Nat) : Int)) false none "" "").lines.length = 3
    ∧ (runGeneration (.rangeCombinations "0123456789".toList 2 2)
        (some ((3 : Nat) : Int)) false none "" "").sessionAfter = none
    ∧ (runGeneration (.rangeCombinations "0123456789".toList 2 2)
        (some ((3 : Nat) : Int)) false none "" "").outcome = Outcome.completed :=
  c9_limit_completes _ "" "" 3 (by decide) (by decide)

/-- C10: with minLen 0 the very first item of a range-combinations
enumeration is the empty word, whose rendered line is the configured
leading and trailing strings alone, and totalSize includes the
charset-size-to-the-zero = 1 term for length zero on top of the sum over
the remaining lengths: length-zero enumeration is a well-defined edge
case, not an error. -/
theorem c10_minLen_zero (cs : List Char) (M : Nat) (pre suf : String) :
    ((generate_words (.rangeCombinations cs 0 M)).map (renderLine pre suf)).head?
        = some (pre ++ suf ++ "\n")
    ∧ estimate_combinations (.rangeCombinations cs 0 M)
        = 1 + ∑ L ∈ Finset.Icc 1 M, cs.length ^ L := by
  constructor
  · have hw : generate_words (.rangeCombinations cs 0 M)
        = [] :: (List.range' 1 M).flatMap (productRepeat cs) := by
      show (List.range' 0 (M + 1 - 0)).flatMap (productRepeat cs) = _
      rw [Nat.sub_zero, List.range'_succ, List.flatMap_cons]
      rfl
    rw [hw, List.map_cons, List.head?_cons, renderLine_nil]
  · rw [estimate_range_eq cs 0 M,
      show Finset.Icc 0 M = insert 0 (Finset.Icc 1 M) by
        ext x; simp [Finset.mem_Icc, Finset.mem_insert]; omega,
      Finset.sum_insert (by simp), pow_zero]
